import Mathlib

/-
Verification of the `lc_parser` chromatogram library against its specification.

The model below is a shallow embedding of `parser/chromatogram.py` and
`parser/peak.py`.  Python floats are modelled by an arbitrary linear ordered
field `α` (instantiated at `ℚ` for concrete evaluations); machine floating
point rounding is not modelled.  Library calls (`np.polyfit`, `np.poly1d`,
`scipy.signal.savgol_filter`, `scipy.signal.find_peaks`,
`scipy.integrate.simpson`, `np.mean`, `np.std`) are modelled by their exact
mathematical definitions, following the scipy/numpy reference implementations
step by step.  Python strings are modelled as `List Char`.
-/

attribute [local semireducible] Rat.add Rat.mul Rat.sub Rat.inv

set_option maxRecDepth 4000000

namespace LC

variable {α : Type} [LinearOrderedField α]

/-- Sum of pairwise products (a dot product over lists), used to state and
solve linear systems. -/
def dot (xs ys : List α) : α := (List.zipWith (fun a b => a * b) xs ys).sum

/-- `np.mean` of a list of samples. -/
def mean (xs : List α) : α := xs.sum / (xs.length : α)

/-- The population variance (`ddof = 0`), whose square root is `np.std`. -/
def varPop (xs : List α) : α := mean (xs.map (fun x => (x - mean xs) ^ 2))

/-- Evaluation of a polynomial whose coefficients are listed in decreasing
degree order, as `np.poly1d` / `np.polyval` do (Horner form). -/
def polyval (cs : List α) (t : α) : α := cs.foldl (fun acc c => acc * t + c) 0

/-- Element `i` of a list of samples, with the (never observed) default 0;
all accesses below stay in range, mirroring the unchecked numpy indexing. -/
def xval (xs : List α) (i : ℕ) : α := xs.getD i 0

/-- Pick the first row of an augmented linear system whose leading coefficient
is nonzero (partial pivoting); returns that row and the remaining rows. -/
def selectPivot : List (List α) → Option (List α × List (List α))
  | [] => none
  | r :: rs =>
    if r.headD 0 ≠ 0 then some (r, rs)
    else
      match selectPivot rs with
      | some (p, rest) => some (p, r :: rest)
      | none => none

/-- Eliminate the leading column of row `r` against pivot row `p`; both are
rows of an augmented system, and the leading entries are dropped. -/
def elimRow (p r : List α) : List α :=
  match p, r with
  | p0 :: ps, r0 :: rs => List.zipWith (fun a b => b - r0 / p0 * a) ps rs
  | _, _ => []

/-- Gaussian elimination with partial pivoting and back substitution on an
augmented system with `n` unknowns (each row is `coefficients ++ [rhs]`).
`none` when no nonzero pivot exists at some step. -/
def gaussAux : (n : ℕ) → List (List α) → Option (List α)
  | 0, _ => some []
  | n + 1, rows =>
    match selectPivot rows with
    | none => none
    | some (p, rest) =>
      match gaussAux n (rest.map (elimRow p)) with
      | none => none
      | some xs =>
        match p with
        | p0 :: ps => some ((ps.getLastD 0 - dot ps.dropLast xs) / p0 :: xs)
        | [] => none

/-- Solve a square augmented system. -/
def gaussSolve (rows : List (List α)) : Option (List α) :=
  gaussAux rows.length rows

/-- Row `i` of the normal equations of the least-squares polynomial fit of
degree `d` (`np.polyfit`, columns in decreasing degree): coefficient `j` is
`Σ_t t ^ (2d − i − j)` and the appended right-hand side is
`Σ_(t, y) t ^ (d − i) * y`. -/
def normalRow (ts ys : List α) (d i : ℕ) : List α :=
  ((List.range (d + 1)).map fun j => (ts.map fun t => t ^ (2 * d - i - j)).sum)
    ++ [((List.zip ts ys).map fun p => p.1 ^ (d - i) * p.2).sum]

/-- The normal equations of `np.polyfit` as an augmented square system. -/
def normalSystem (ts ys : List α) (d : ℕ) : List (List α) :=
  (List.range (d + 1)).map (normalRow ts ys d)

/-- The least-squares fit coefficients, when elimination on the normal
equations succeeds (it succeeds exactly when the system is uniquely solvable,
i.e. the design matrix has full column rank). -/
def polyfitCoeffs (ts ys : List α) (d : ℕ) : Option (List α) :=
  gaussSolve (normalSystem ts ys d)

/-- `np.polyfit(ts, ys, d)`.  `np.polyfit` never raises on rank-deficient
input (it returns a least-squares solution and emits a `RankWarning`); the
fallback below returns the zero polynomial, and every theorem touching a fit
either evaluates a concrete full-rank system or assumes `polyfitCoeffs`
succeeded. -/
def polyfit (ts ys : List α) (d : ℕ) : List α :=
  (polyfitCoeffs ts ys d).getD (List.replicate (d + 1) 0)

/-- Support abscissae of the Savitzky-Golay window of odd length `w`
(`scipy.signal.savgol_coeffs`): `pos − j` for `j = 0, …, w − 1` with
`pos = w / 2`, i.e. the reversed `arange(-pos, w - pos)` used by scipy's
`use="conv"` convention. -/
def sgSupport (w : ℕ) : List α :=
  (List.range w).map (fun j : ℕ => ((w / 2 : ℕ) : α) - (j : α))

/-- The Gram matrix `A * Aᵀ` of the Savitzky-Golay design matrix
`A i j = s_j ^ i` (`i ≤ p`) over the window support, augmented with the
right-hand side `e_0` (derivative order 0, `delta = 1`). -/
def sgGram (w p : ℕ) : List (List α) :=
  (List.range (p + 1)).map fun i =>
    ((List.range (p + 1)).map fun l =>
        ((sgSupport w : List α).map (fun s => s ^ (i + l))).sum)
      ++ [if i = 0 then 1 else 0]

/-- `scipy.signal.savgol_coeffs(w, p)` for derivative order 0: the minimum
norm least-squares solution `Aᵀ (A Aᵀ)⁻¹ e_0` of the underdetermined system
`A c = e_0`.  For derivative order 0 on a symmetric odd window the
coefficient vector is symmetric, so scipy's kernel reversal inside
`convolve1d` composed with its `use="conv"` reversal is the identity. -/
def savgolCoeffs (w p : ℕ) : List α :=
  match gaussSolve (sgGram w p) with
  | some z =>
    (sgSupport w).map (fun s => dot z ((List.range (p + 1)).map (fun i => s ^ i)))
  | none => List.replicate w 0

/-- The polynomial edge fit of `savgol_filter`'s `mode="interp"`
(`scipy.signal._savitzky_golay._fit_edge`): fit a degree `p` polynomial to
the `w` window values at abscissae `0, …, w − 1` and evaluate it at
abscissa `i`. -/
def sgEdgeVal (window : List α) (p i : ℕ) : α :=
  polyval (polyfit ((List.range window.length).map (fun j : ℕ => (j : α))) window p) (i : α)

/-- The validation failures `Chromatogram.detect_peaks` can raise.  All four
are `ValueError`s in the source (the first two raised by `detect_peaks`
itself, the third by `scipy.signal.savgol_filter`, the fourth by
`scipy.signal.find_peaks`); the spec's taxonomy groups them as
`ParameterError`. -/
inductive DetectErr
  | windowTooLarge
  | windowEven
  | polyorderTooLarge
  | wlenTooSmall
  deriving DecidableEq, Repr

/-- `scipy.signal.savgol_filter(xs, w, polyorder := p)` with the default
`mode="interp"`: scipy requires `p < w` and (for `interp`) `w ≤ len(xs)`.
Interior samples are the correlation of the Savitzky-Golay coefficients with
the window centred there; the first and last `w / 2` samples are replaced
with evaluations of a degree `p` polynomial fit of the first (resp. last)
`w` samples. -/
def savgol_filter (xs : List α) (w p : ℕ) : Except DetectErr (List α) :=
  if w ≤ p then .error .polyorderTooLarge
  else if xs.length < w then .error .windowTooLarge
  else
    let n := xs.length
    let h := w / 2
    let c : List α := savgolCoeffs w p
    .ok ((List.range n).map fun i =>
      if i < h then sgEdgeVal (xs.take w) p i
      else if n - h ≤ i then sgEdgeVal (xs.drop (n - w)) p (i - (n - w))
      else dot c ((xs.drop (i - h)).take w))

/-- One accepted peak of `scipy.signal.find_peaks` carrying exactly the
properties the source reads: the sample index, `properties["peak_heights"]`,
`properties["left_bases"]` and `properties["right_bases"]`. -/
structure FoundPeak (α : Type) where
  idx : ℕ
  height : α
  left_base : ℕ
  right_base : ℕ
  deriving DecidableEq, Repr

/-- The plateau scan inside `scipy.signal._local_maxima_1d`: starting at `j`,
advance while `j < iMax` and `x j = v`; returns the index where the scan
stops.  `fuel` only bounds the recursion and every call supplies at least
`iMax − j + 1`. -/
def plateauEnd (xs : List α) (v : α) (iMax : ℕ) : ℕ → ℕ → ℕ
  | 0, j => j
  | fuel + 1, j => if j < iMax ∧ xval xs j = v then plateauEnd xs v iMax fuel (j + 1) else j

/-- The main scan of `scipy.signal._local_maxima_1d` over `i = 1, …, iMax − 1`
(`iMax = length − 1`): a sample strictly above its left neighbour that is
followed, after an optional plateau of equal values, by a strictly smaller
sample is a local maximum, recorded at the plateau midpoint; the scan resumes
after the plateau.  `fuel` only bounds the recursion. -/
def lmAux (xs : List α) (iMax : ℕ) : ℕ → ℕ → List ℕ
  | 0, _ => []
  | fuel + 1, i =>
    if i < iMax then
      if xval xs (i - 1) < xval xs i then
        let ahead := plateauEnd xs (xval xs i) iMax (xs.length + 1) (i + 1)
        if xval xs ahead < xval xs i then
          (i + (ahead - 1)) / 2 :: lmAux xs iMax fuel (ahead + 1)
        else lmAux xs iMax fuel (i + 1)
      else lmAux xs iMax fuel (i + 1)
    else []

/-- `scipy.signal._local_maxima_1d`: midpoints of the strict local maxima of
a sample list, in increasing order. -/
def localMaxima (xs : List α) : List ℕ := lmAux xs (xs.length - 1) (xs.length + 1) 1

/-- The leftward base scan of `scipy.signal._peak_prominences`: from the peak
walk left while `iMin ≤ i` and `x i ≤ x peak`, tracking the running minimum
and the first (leftmost-found) index attaining it. -/
def scanLeft (xs : List α) (xp : α) (iMin : ℕ) : ℕ → ℕ → α → ℕ → α × ℕ
  | 0, _, m, b => (m, b)
  | fuel + 1, i, m, b =>
    if iMin ≤ i ∧ xval xs i ≤ xp then
      let m2 := if xval xs i < m then xval xs i else m
      let b2 := if xval xs i < m then i else b
      if i = 0 then (m2, b2) else scanLeft xs xp iMin fuel (i - 1) m2 b2
    else (m, b)

/-- The rightward base scan of `scipy.signal._peak_prominences`, the mirror
image of `scanLeft`. -/
def scanRight (xs : List α) (xp : α) (iMax : ℕ) : ℕ → ℕ → α → ℕ → α × ℕ
  | 0, _, m, b => (m, b)
  | fuel + 1, i, m, b =>
    if i ≤ iMax ∧ xval xs i ≤ xp then
      let m2 := if xval xs i < m then xval xs i else m
      let b2 := if xval xs i < m then i else b
      scanRight xs xp iMax fuel (i + 1) m2 b2
    else (m, b)

/-- `scipy.signal._peak_prominences` at one peak: the evaluation window is
clipped to `wlen / 2` samples on each side when `2 ≤ wlen` (the `wlen = -1`
branch is scipy's `wlen=None` case, unreachable from `detect_peaks`); returns
`(prominence, left_base, right_base)`. -/
def promData (xs : List α) (wlen peak : ℕ) : α × ℕ × ℕ :=
  let iMin := if 2 ≤ wlen then max (peak - wlen / 2) 0 else 0
  let iMax := if 2 ≤ wlen then min (peak + wlen / 2) (xs.length - 1) else xs.length - 1
  let l := scanLeft xs (xval xs peak) iMin (peak + 1) peak (xval xs peak) peak
  let r := scanRight xs (xval xs peak) iMax (xs.length + 1) peak (xval xs peak) peak
  (xval xs peak - max l.1 r.1, l.2, r.2)

/-- `scipy.signal.find_peaks(x, height, prominence, wlen)` as `detect_peaks`
invokes it (`height` and `prominence` always given as scalars, so both act as
lower bounds): local maxima, filtered by `height ≤ x[peak]`, then by
`prominence ≤ prominence(peak)` with bases computed under `wlen`.
`find_peaks` rejects `wlen ≤ 1` (`_arg_wlen_as_expected`). -/
def find_peaks (xs : List α) (height prominence : α) (wlen : ℕ) :
    Except DetectErr (List (FoundPeak α)) :=
  if wlen ≤ 1 then .error .wlenTooSmall
  else
    let kept := ((localMaxima xs).filter (fun p => height ≤ xval xs p)).map
      (fun p => (p, promData xs wlen p))
    .ok ((kept.filter (fun q => prominence ≤ q.2.1)).map
      (fun q => { idx := q.1, height := xval xs q.1,
                  left_base := q.2.2.1, right_base := q.2.2.2 }))

/-- The five instance attributes `Peak.__init__` assigns (`parser/peak.py`).
`data` is the value-copied slice of `(time, value)` rows later used for area
integration; the other dataframe columns are never read and are omitted. -/
structure Peak (α : Type) where
  left_base_idx : ℕ
  right_base_idx : ℕ
  height : α
  retention_time : α
  data : List (α × α)
  deriving DecidableEq, Repr

/-- The detrended then Savitzky-Golay smoothed series that `detect_peaks`
hands to `find_peaks`, behind the two window validations of the source:
the dataset must not be shorter than the window, and the window must be odd
(checked in that order). -/
def processedSeries (time values : List α) (poly_degree sg_window_length : ℕ) :
    Except DetectErr (List α) :=
  if values.length < sg_window_length then .error .windowTooLarge
  else if sg_window_length % 2 = 0 then .error .windowEven
  else
    let baseline := time.map (polyval (polyfit time values poly_degree))
    savgol_filter (List.zipWith (fun v b => v - b) values baseline) sg_window_length 3

/-- The list of `Peak` records one call of `Chromatogram.detect_peaks` builds
(and appends to `self.peaks`): validation, detrending, smoothing, threshold
resolution, `find_peaks`, then one `Peak` per accepted index with the raw
data slice `iloc[left_base : right_base + 1]`.  `sqrtFn` supplies the square
root of the value type (for `ℝ`, `Real.sqrt`); it is consulted only to
compute `values.std()` in the auto-threshold branch. -/
def detectPeaksList (sqrtFn : α → α) (time values : List α) (poly_degree : ℕ)
    (min_height : Option α) (prominence : α) (peak_window_length sg_window_length : ℕ) :
    Except DetectErr (List (Peak α)) := do
  let s ← processedSeries time values poly_degree sg_window_length
  let h := match min_height with
    | some h => h
    | none => mean s + sqrtFn (varPop s)
  let fps ← find_peaks s h prominence peak_window_length
  pure (fps.map fun fp =>
    { left_base_idx := fp.left_base
      right_base_idx := fp.right_base
      height := fp.height
      retention_time := xval time fp.idx
      data := ((List.zip time values).drop fp.left_base).take
        (fp.right_base + 1 - fp.left_base) })

/-- The state of a `Chromatogram` instance that the detection claims touch:
the two mandatory columns of `raw_data` and the `peaks` list (`__init__`
sets `self.peaks = []`; `detect_peaks` only ever appends to it). -/
structure Chromatogram (α : Type) where
  time : List α
  values : List α
  peaks : List (Peak α)
  deriving DecidableEq, Repr

/-- `Chromatogram.detect_peaks`: computes the detected peaks of the stored
series and appends each of them to `self.peaks`.  The loop body cannot raise,
so the batch append is exact. -/
def Chromatogram.detect_peaks (c : Chromatogram α) (sqrtFn : α → α) (poly_degree : ℕ)
    (min_height : Option α) (prominence : α) (peak_window_length sg_window_length : ℕ) :
    Except DetectErr (Chromatogram α) := do
  let ps ← detectPeaksList sqrtFn c.time c.values poly_degree min_height prominence
    peak_window_length sg_window_length
  pure { c with peaks := c.peaks ++ ps }

/-- One pass of `scipy.integrate._basic_simpson` with explicit abscissae:
each successive pair of intervals `(x0, x1, x2)` contributes the nonuniform
Simpson term; a trailing single interval contributes nothing here. -/
def simpsonPairs : List α → List α → α
  | y0 :: y1 :: y2 :: ys, x0 :: x1 :: x2 :: xs =>
    let h0 := x1 - x0
    let h1 := x2 - x1
    (h0 + h1) / 6 *
        (y0 * (2 - h1 / h0) + y1 * ((h0 + h1) ^ 2 / (h0 * h1)) + y2 * (2 - h0 / h1))
      + simpsonPairs (y2 :: ys) (x2 :: xs)
  | _, _ => 0

/-- `scipy.integrate.simpson(y, x)`.  A single sample (or none) integrates to
0; an odd sample count uses the composite rule; two samples fall back to the
trapezoid; even counts ≥ 4 use the rule on the first `n − 1` samples plus the
last-interval correction (`even='simpson'`, the default since scipy 1.11).
No theorem below touches an even count ≥ 2. -/
def simpson (ys xs : List α) : α :=
  let n := ys.length
  if n ≤ 1 then 0
  else if n % 2 = 1 then simpsonPairs ys xs
  else if n = 2 then (xval xs 1 - xval xs 0) * (xval ys 0 + xval ys 1) / 2
  else
    let h0 := xval xs (n - 2) - xval xs (n - 3)
    let h1 := xval xs (n - 1) - xval xs (n - 2)
    simpsonPairs ys.dropLast xs.dropLast
      + ((2 * h1 ^ 2 + 3 * h0 * h1) / (6 * (h0 + h1)) * xval ys (n - 1)
        + (h1 ^ 2 + 3 * h0 * h1) / (6 * h0) * xval ys (n - 2)
        - h1 ^ 3 / (6 * h0 * (h0 + h1)) * xval ys (n - 3))

/-- The failures of the two per-peak computations, both `ValueError`s in the
source; the spec calls the first `InsufficientDataError` and the second
`ParameterError`. -/
inductive PeakOpErr
  | emptyPeakData
  | nonPositiveFlowRate
  deriving DecidableEq, Repr

/-- `Chromatogram.calculate_peak_area`: rejects an empty slice, then applies
`scipy.integrate.simpson` to the `Value (EU)` and `Time (min)` columns of the
peak's data slice. -/
def calculate_peak_area (peak : Peak α) : Except PeakOpErr α :=
  if peak.data = [] then .error .emptyPeakData
  else .ok (simpson (peak.data.map (fun r => r.2)) (peak.data.map (fun r => r.1)))

/-- `Chromatogram.calculate_elution_volume`: rejects a non-positive flow rate,
otherwise returns `retention_time * flow_rate`. -/
def calculate_elution_volume (peak : Peak α) (flow_rate : α) : Except PeakOpErr α :=
  if flow_rate ≤ 0 then .error .nonPositiveFlowRate
  else .ok (peak.retention_time * flow_rate)

/-- A Python attribute value of a `Peak` instance. -/
inductive PyVal (α : Type)
  | nat (n : ℕ)
  | num (x : α)
  | table (rows : List (α × α))
  deriving DecidableEq

/-- The one Python exception `Peak.__repr__` can raise. -/
inductive PyErr
  | attributeError
  deriving DecidableEq, Repr

/-- Python instance attribute lookup on a `Peak` after `__init__` has run:
exactly the five attributes the constructor assigns exist; any other name
(in particular `left_thresh` and `right_thresh`) is an `AttributeError`. -/
def Peak.getattr (p : Peak α) (name : List Char) : Option (PyVal α) :=
  if name = ("left_base_idx").data then some (.nat p.left_base_idx)
  else if name = ("right_base_idx").data then some (.nat p.right_base_idx)
  else if name = ("height").data then some (.num p.height)
  else if name = ("retention_time").data then some (.num p.retention_time)
  else if name = ("data").data then some (.table p.data)
  else none

/-- Best-effort rendering of an attribute value inside `__repr__`'s f-string.
CPython's numeric text formatting is outside this embedding; only the
attribute lookups of `__repr__`, which fail before any rendering is
observable, carry a claim. -/
def PyVal.render : PyVal α → List Char
  | .nat n => (toString n).data
  | .num _ => ("<float>").data
  | .table _ => ("<dataframe>").data

/-- `Peak.__repr__` (`parser/peak.py`): the f-string reads, in order,
`self.left_thresh`, `self.right_thresh`, `self.height`,
`self.retention_time` and `self.data`. -/
def Peak.reprText (p : Peak α) : Except PyErr (List Char) := do
  let lt ← match p.getattr (("left_thresh").data) with
    | some v => Except.ok v
    | none => Except.error .attributeError
  let rt ← match p.getattr (("right_thresh").data) with
    | some v => Except.ok v
    | none => Except.error .attributeError
  let ht ← match p.getattr (("height").data) with
    | some v => Except.ok v
    | none => Except.error .attributeError
  let rtime ← match p.getattr (("retention_time").data) with
    | some v => Except.ok v
    | none => Except.error .attributeError
  let d ← match p.getattr (("data").data) with
    | some v => Except.ok v
    | none => Except.error .attributeError
  Except.ok (("Peak(left_thresh=").data ++ lt.render
    ++ (", right_thresh=").data ++ rt.render
    ++ (", height=").data ++ ht.render
    ++ (", retention_time=").data ++ rtime.render
    ++ (", data=[").data ++ d.render ++ ("])").data)

/-- Whether an `Except` computation succeeded (Python: no exception was
raised). -/
def exceptOk {ε δ : Type} : Except ε δ → Bool
  | .ok _ => true
  | .error _ => false

/-- Python `str` values are modelled as `List Char`, so every string
operation reduces in the kernel. -/
abbrev Str := List Char

/-- The ASCII whitespace set of Python's no-argument `str.strip()`
(space, tab, newline, carriage return, vertical tab, form feed). -/
def pyIsSpace (c : Char) : Bool :=
  c == ' ' || c == '\t' || c == '\n' || c == '\r' || c == Char.ofNat 11 || c == Char.ofNat 12

/-- Python `str.strip()`: drop leading and trailing whitespace. -/
def pyStrip (s : Str) : Str :=
  ((s.dropWhile pyIsSpace).reverse.dropWhile pyIsSpace).reverse

/-- The worker of `pySplit`: left-to-right, non-overlapping occurrences of
`sep`, accumulating the current field in reverse.  `fuel` only bounds the
recursion (each step consumes at least one character). -/
def pySplitAux (sep : Str) : ℕ → Str → Str → List Str
  | 0, cur, _ => [cur.reverse]
  | _ + 1, cur, [] => [cur.reverse]
  | fuel + 1, cur, c :: rest =>
    if sep.isPrefixOf (c :: rest) then
      cur.reverse :: pySplitAux sep fuel [] ((c :: rest).drop sep.length)
    else
      pySplitAux sep fuel (c :: cur) rest

/-- Python `s.split(sep)` for a nonempty separator: splits at every
occurrence, keeping empty fields, so the result has one more entry than
there are occurrences. -/
def pySplit (s sep : Str) : List Str := pySplitAux sep (s.length + 1) [] s

/-- Python `line.endswith(":")`. -/
def pyEndsColon (s : Str) : Bool := s.getLastD ' ' == ':'

/-- The four-section metadata mapping `Chromatogram.__init__` creates; each
section is an insertion-ordered association list (a Python dict). -/
structure Metadata where
  injection : List (Str × Str)
  chromData : List (Str × Str)
  signalParam : List (Str × Str)
  other : List (Str × Str)
  deriving DecidableEq, Repr

/-- The empty metadata mapping of `Chromatogram.__init__`. -/
def emptyMetadata : Metadata := ⟨[], [], [], []⟩

/-- Python dict assignment `d[key] = value`: update in place when the key
exists, else append (insertion order preserved, last write wins). -/
def updateAssoc (m : List (Str × Str)) (k v : Str) : List (Str × Str) :=
  match m with
  | [] => [(k, v)]
  | (k2, v2) :: rest => if k2 = k then (k, v) :: rest else (k2, v2) :: updateAssoc rest k v

/-- `self.metadata[section][key] = value`; `none` models the `KeyError`
raised when `section` is not one of the four dict keys. -/
def Metadata.setKV (m : Metadata) (s k v : Str) : Option Metadata :=
  if s = ("Injection Information").data then
    some { m with injection := updateAssoc m.injection k v }
  else if s = ("Chromatogram Data Information").data then
    some { m with chromData := updateAssoc m.chromData k v }
  else if s = ("Signal Parameter Information").data then
    some { m with signalParam := updateAssoc m.signalParam k v }
  else if s = ("Other").data then
    some { m with other := updateAssoc m.other k v }
  else none

/-- The failures of `Chromatogram._parse_file`: the missing/duplicated
delimiter `ValueError` (the spec's `FormatError`), the unpack `ValueError`
when a metadata line does not split on TAB into exactly two fields, the
`KeyError` for an unrecognized section, and the missing-column `ValueError`
after `read_csv`. -/
inductive ParseErr
  | missingDelimiter
  | badKeyValueLine
  | unknownSection
  | missingColumn
  deriving DecidableEq, Repr

/-- The metadata walk of `_parse_file`: a line ending in `:` switches the
current section to the line minus that colon (whether or not the name is
recognized); empty lines are skipped; every other line must split on TAB
into exactly a key and a value, stored in the current section. -/
def walkLines : List Str → Str → Metadata → Except ParseErr Metadata
  | [], _, m => .ok m
  | l :: ls, cur, m =>
    if pyEndsColon l then walkLines ls l.dropLast m
    else if l = [] then walkLines ls cur m
    else
      match pySplit l (("\t").data) with
      | [k, v] =>
        match m.setKV cur k v with
        | some m2 => walkLines ls cur m2
        | none => .error .unknownSection
      | _ => .error .badKeyValueLine

/-- The key/value reading of a metadata line: `some (key, value)` when the
line splits on TAB into exactly two fields, else `none`.  (The empty line
splits into the single field `[[]]`, so it reads as `none`.) -/
def kvOf (l : Str) : Option (Str × Str) :=
  match pySplit l (("\t").data) with
  | [k, v] => some (k, v)
  | _ => none

/-- The parsed data block: the header and string cells of pandas
`read_csv(sep="\t")`.  The claims touch only the structure and the
required-column check, so the numeric cell parsing and the `n.a.` sentinel
handling of pandas are not modelled. -/
structure DataTable where
  header : List Str
  rows : List (List Str)
  deriving DecidableEq, Repr

/-- `Chromatogram._parse_file` on the file's content: strip the content,
split on the literal delimiter line `"Chromatogram Data:\n"` (exactly one
occurrence required, i.e. exactly two fragments), walk the metadata block
starting in section `Other`, then parse the data block and check the two
mandatory columns. -/
def parse_file (content : Str) : Except ParseErr (Metadata × DataTable) :=
  match pySplit (pyStrip content) (("Chromatogram Data:\n").data) with
  | [md, data] => do
    let m ← walkLines (pySplit md (("\n").data)) (("Other").data) emptyMetadata
    let ls := pySplit data (("\n").data)
    let tbl : DataTable :=
      { header := pySplit (ls.headD []) (("\t").data)
        rows := ls.tail.map (fun l => pySplit l (("\t").data)) }
    if ("Time (min)").data ∈ tbl.header ∧ ("Value (EU)").data ∈ tbl.header then
      pure (m, tbl)
    else .error .missingColumn
  | _ => .error .missingDelimiter

end LC

deriving instance DecidableEq for Except

namespace LC

variable {α : Type} [LinearOrderedField α]

/-- Claim C6: `calculate_elution_volume` returns exactly
`retention_time * flow_rate` for a strictly positive flow rate and fails
with the `ParameterError`-kind `ValueError` for a zero or negative one. -/
theorem C6_elution_volume (pk : Peak α) (fr : α) :
    (0 < fr → calculate_elution_volume pk fr = .ok (pk.retention_time * fr)) ∧
    (fr ≤ 0 → calculate_elution_volume pk fr = .error .nonPositiveFlowRate) := by
  constructor
  · intro h
    simp [calculate_elution_volume, not_le.mpr h]
  · intro h
    simp [calculate_elution_volume, h]

/-- Witness for C6: a peak with `retention_time = 1` and `flow_rate = 1`
yields exactly `1`; `flow_rate = 0` is rejected. -/
theorem C6_elution_volume_witness :
    calculate_elution_volume (⟨0, 1, 1, 1, [(0, 0), (1, 1)]⟩ : Peak ℚ) 1 = .ok 1 ∧
    calculate_elution_volume (⟨0, 1, 1, 1, [(0, 0), (1, 1)]⟩ : Peak ℚ) 0
      = .error .nonPositiveFlowRate := by
  constructor
  · have h := (C6_elution_volume (⟨0, 1, 1, 1, [(0, 0), (1, 1)]⟩ : Peak ℚ) 1).1 (by norm_num)
    simpa using h
  · exact (C6_elution_volume (⟨0, 1, 1, 1, [(0, 0), (1, 1)]⟩ : Peak ℚ) 0).2 (by norm_num)

/-- Claim C8: area integration is Simpson's composite rule: on the 3-point
slice `time = [1, 2, 3]`, `value = [0, 2, 0]` the area is `8/3` (2.67 to two
decimals), not the exact triangular area 2. -/
theorem C8_simpson_area :
    calculate_peak_area (⟨0, 2, 2, 2, [(1, 0), (2, 2), (3, 0)]⟩ : Peak ℚ) = .ok (8 / 3) ∧
    ((8 : ℚ) / 3) ≠ 2 := by
  constructor
  · decide
  · norm_num

omit [LinearOrderedField α] in
/-- Claim C10: for every `Peak` built by the public constructor, `__repr__`
raises `AttributeError`, because its f-string reads the never-assigned
attributes `left_thresh` and `right_thresh`. -/
theorem C10_repr_attribute_error (p : Peak α) :
    p.reprText = .error .attributeError := rfl

/-- Claim C5 amended: an empty slice is rejected with the
`InsufficientDataError`-kind `ValueError`, but a single-sample slice is not:
`simpson` of one sample is 0, so `calculate_peak_area` returns the number 0
rather than failing. -/
theorem C5_degenerate_slices (pk : Peak α) (t v : α) :
    (pk.data = [] → calculate_peak_area pk = .error .emptyPeakData) ∧
    (pk.data = [(t, v)] → calculate_peak_area pk = .ok 0) := by
  constructor
  · intro h
    simp [calculate_peak_area, h]
  · intro h
    simp [calculate_peak_area, h, simpson]

/-- Witness for C5 amended: the empty and the singleton slice, concretely. -/
theorem C5_degenerate_slices_witness :
    calculate_peak_area (⟨0, 0, 0, 0, ([] : List (ℚ × ℚ))⟩ : Peak ℚ)
        = .error .emptyPeakData ∧
    calculate_peak_area (⟨0, 0, 5, 2, [((2 : ℚ), (7 : ℚ))]⟩ : Peak ℚ) = .ok 0 :=
  ⟨(C5_degenerate_slices ⟨0, 0, 0, 0, []⟩ 0 0).1 rfl,
   (C5_degenerate_slices ⟨0, 0, 5, 2, [(2, 7)]⟩ 2 7).2 rfl⟩

/-- Counterexample to claim C5 as stated: a one-sample slice is degenerate,
yet `calculate_peak_area` returns the numeric area 0 instead of failing. -/
theorem C5_single_point_counterexample :
    calculate_peak_area (⟨0, 0, 5, 1, [((1 : ℚ), (5 : ℚ))]⟩ : Peak ℚ) = .ok 0 := by
  decide

/-- Claim C1 amended: an even smoothing window, or one strictly longer than
the series, is rejected (the length check fires first); a window exactly as
long as the series is not rejected by these validations. -/
theorem C1_window_validation (sqrtFn : α → α) (time values : List α) (pd : ℕ)
    (mh : Option α) (prom : α) (wlen sg : ℕ)
    (h : sg % 2 = 0 ∨ values.length < sg) :
    detectPeaksList sqrtFn time values pd mh prom wlen sg =
      .error (if values.length < sg then DetectErr.windowTooLarge else DetectErr.windowEven) := by
  unfold detectPeaksList processedSeries
  rcases Nat.lt_or_ge values.length sg with hlt | hge
  · rw [if_pos hlt, if_pos hlt]
    rfl
  · have heven : sg % 2 = 0 := h.resolve_right (by omega)
    rw [if_neg (Nat.not_lt.mpr hge), if_neg (Nat.not_lt.mpr hge), if_pos heven]
    rfl

/-- Witness for C1 amended: the spec's example window length 26 on a
30-sample series is rejected as even. -/
theorem C1_window_validation_witness :
    detectPeaksList (fun q => q) (List.replicate 30 (0 : ℚ)) (List.replicate 30 0)
        3 none 1 100 26 = .error DetectErr.windowEven := by
  have h := C1_window_validation (fun q => (q : ℚ)) (List.replicate 30 0)
    (List.replicate 30 0) 3 none 1 100 26 (Or.inl (by decide))
  simpa using h

/-- Counterexample to claim C1 as stated: an odd window exactly as long as
the series (5 samples, window 5) is not rejected — detection succeeds. -/
theorem C1_equal_window_counterexample :
    ([(0 : ℚ), 0, 0, 0, 0] : List ℚ).length = 5 ∧ (5 : ℕ) % 2 = 1 ∧
    detectPeaksList (fun q => q) [0, 1, 2, 3, 4] ([0, 0, 0, 0, 0] : List ℚ)
        3 (some (-1)) 1 100 5 = .ok [] := by
  refine ⟨by decide, by decide, by decide⟩

/-- Claim C7: when no explicit minimum height is supplied, the threshold
actually used is the mean plus one standard deviation of the processed
(detrended and smoothed) series: auto-threshold detection coincides with
explicit-threshold detection at `mean s + sqrt (var s)`. -/
theorem C7_auto_min_height (sqrtFn : α → α) (time values : List α) (pd : ℕ)
    (prom : α) (wlen sg : ℕ) (s : List α)
    (hs : processedSeries time values pd sg = .ok s) :
    detectPeaksList sqrtFn time values pd none prom wlen sg =
      detectPeaksList sqrtFn time values pd (some (mean s + sqrtFn (varPop s)))
        prom wlen sg := by
  unfold detectPeaksList
  rw [hs]
  rfl

/-- Witness for C7: on a concrete series whose processed form is the zero
series, auto-threshold detection equals detection at threshold
`mean + sqrt var` of that processed series. -/
theorem C7_auto_min_height_witness :
    processedSeries ([0, 1, 2, 3, 4] : List ℚ) [0, 0, 0, 0, 0] 3 5 = .ok [0, 0, 0, 0, 0] ∧
    detectPeaksList (fun q => q) ([0, 1, 2, 3, 4] : List ℚ) [0, 0, 0, 0, 0] 3 none 1 100 5 =
      detectPeaksList (fun q => q) [0, 1, 2, 3, 4] [0, 0, 0, 0, 0] 3
        (some (mean [0, 0, 0, 0, 0] + (fun q => q) (varPop [0, 0, 0, 0, 0]))) 1 100 5 :=
  ⟨by decide,
   C7_auto_min_height (fun q => q) [0, 1, 2, 3, 4] [0, 0, 0, 0, 0] 3 1 100 5
     [0, 0, 0, 0, 0] (by decide)⟩

/-- Claim C2 amended: re-invoking `detect_peaks` with the same parameters
does not replace the peak list — it appends the same detected list again.
With `d` the list one invocation detects, the first call leaves
`c.peaks ++ d` and the second `c.peaks ++ d ++ d`; the two agree exactly
when nothing was detected. -/
theorem C2_detect_accumulates (c : Chromatogram α) (sqrtFn : α → α) (pd : ℕ)
    (mh : Option α) (prom : α) (wlen sg : ℕ) (c1 c2 : Chromatogram α)
    (h1 : c.detect_peaks sqrtFn pd mh prom wlen sg = .ok c1)
    (h2 : c1.detect_peaks sqrtFn pd mh prom wlen sg = .ok c2) :
    ∃ d, detectPeaksList sqrtFn c.time c.values pd mh prom wlen sg = .ok d ∧
      c1.peaks = c.peaks ++ d ∧ c2.peaks = c.peaks ++ (d ++ d) ∧
      (c2.peaks = c1.peaks ↔ d = []) := by
  unfold Chromatogram.detect_peaks at h1 h2
  cases hd : detectPeaksList sqrtFn c.time c.values pd mh prom wlen sg with
  | error e =>
    rw [hd] at h1
    exact absurd h1 (by intro hx; cases hx)
  | ok d =>
    rw [hd] at h1
    have hc1 : (Except.ok { c with peaks := c.peaks ++ d } : Except DetectErr _) = .ok c1 := h1
    have hc1e : c1 = { c with peaks := c.peaks ++ d } := (Except.ok.inj hc1).symm
    subst hc1e
    rw [show ({ c with peaks := c.peaks ++ d } : Chromatogram α).time = c.time from rfl,
      show ({ c with peaks := c.peaks ++ d } : Chromatogram α).values = c.values from rfl,
      hd] at h2
    have hc2 : (Except.ok { c with peaks := c.peaks ++ d ++ d } : Except DetectErr _) = .ok c2 := h2
    have hc2e : c2 = { c with peaks := c.peaks ++ d ++ d } := (Except.ok.inj hc2).symm
    subst hc2e
    refine ⟨d, rfl, rfl, by simp, ?_⟩
    constructor
    · intro he
      have hlen := congrArg List.length he
      simp at hlen
      exact hlen
    · intro he
      simp [he]

/-- Witness for C2 amended, at a 9-sample series with one spike: one call
detects one peak, the second call leaves that peak stored twice. -/
theorem C2_detect_accumulates_witness :
    ∃ d : List (Peak ℚ),
      detectPeaksList (fun q => q) [0, 1, 2, 3, 4, 5, 6, 7, 8] [0, 0, 0, 0, 10, 0, 0, 0, 0]
          3 (some (-1000)) (1 / 1000000) 100 5 = .ok d ∧
      (⟨[0, 1, 2, 3, 4, 5, 6, 7, 8], [0, 0, 0, 0, 10, 0, 0, 0, 0],
          [⟨2, 6, 76 / 33, 4, [(2, 0), (3, 0), (4, 10), (5, 0), (6, 0)]⟩]⟩ :
        Chromatogram ℚ).peaks = ([] : List (Peak ℚ)) ++ d ∧
      (⟨[0, 1, 2, 3, 4, 5, 6, 7, 8], [0, 0, 0, 0, 10, 0, 0, 0, 0],
          [⟨2, 6, 76 / 33, 4, [(2, 0), (3, 0), (4, 10), (5, 0), (6, 0)]⟩,
           ⟨2, 6, 76 / 33, 4, [(2, 0), (3, 0), (4, 10), (5, 0), (6, 0)]⟩]⟩ :
        Chromatogram ℚ).peaks = ([] : List (Peak ℚ)) ++ (d ++ d) ∧
      ((⟨[0, 1, 2, 3, 4, 5, 6, 7, 8], [0, 0, 0, 0, 10, 0, 0, 0, 0],
          [⟨2, 6, 76 / 33, 4, [(2, 0), (3, 0), (4, 10), (5, 0), (6, 0)]⟩,
           ⟨2, 6, 76 / 33, 4, [(2, 0), (3, 0), (4, 10), (5, 0), (6, 0)]⟩]⟩ :
          Chromatogram ℚ).peaks =
        (⟨[0, 1, 2, 3, 4, 5, 6, 7, 8], [0, 0, 0, 0, 10, 0, 0, 0, 0],
          [⟨2, 6, 76 / 33, 4, [(2, 0), (3, 0), (4, 10), (5, 0), (6, 0)]⟩]⟩ :
          Chromatogram ℚ).peaks ↔ d = []) :=
  C2_detect_accumulates ⟨[0, 1, 2, 3, 4, 5, 6, 7, 8], [0, 0, 0, 0, 10, 0, 0, 0, 0], []⟩
    (fun q => q) 3 (some (-1000)) (1 / 1000000) 100 5 _ _ (by decide) (by decide)

/-- Counterexample to claim C2 as stated: at a concrete chromatogram, a
second identical invocation of `detect_peaks` leaves a peak list different
from (twice as long as) the one a single invocation produces. -/
theorem C2_counterexample :
    ∃ c1 c2 : Chromatogram ℚ,
      Chromatogram.detect_peaks ⟨[0, 1, 2, 3, 4, 5, 6, 7, 8], [0, 0, 0, 0, 10, 0, 0, 0, 0], []⟩
          (fun q => q) 3 (some (-1000)) (1 / 1000000) 100 5 = .ok c1 ∧
      c1.detect_peaks (fun q => q) 3 (some (-1000)) (1 / 1000000) 100 5 = .ok c2 ∧
      c2.peaks ≠ c1.peaks :=
  ⟨⟨[0, 1, 2, 3, 4, 5, 6, 7, 8], [0, 0, 0, 0, 10, 0, 0, 0, 0],
      [⟨2, 6, 76 / 33, 4, [(2, 0), (3, 0), (4, 10), (5, 0), (6, 0)]⟩]⟩,
   ⟨[0, 1, 2, 3, 4, 5, 6, 7, 8], [0, 0, 0, 0, 10, 0, 0, 0, 0],
      [⟨2, 6, 76 / 33, 4, [(2, 0), (3, 0), (4, 10), (5, 0), (6, 0)]⟩,
       ⟨2, 6, 76 / 33, 4, [(2, 0), (3, 0), (4, 10), (5, 0), (6, 0)]⟩]⟩,
   by decide, by decide, by decide⟩

/-- `kvOf` of the empty line is `none`. -/
theorem kvOf_nil : kvOf ([] : Str) = none := rfl

/-- Claim C3 amended: while the current section is `Other` — in particular
before any line ending in `:` has been seen — every well-formed key/value
line is filed under `Other`, empty lines are skipped, the walk succeeds, and
the three named sections are untouched (only `other` changes). -/
theorem C3_other_section (ls : List Str) (m : Metadata)
    (h : ∀ l ∈ ls, pyEndsColon l = false ∧ (l = [] ∨ (kvOf l).isSome)) :
    walkLines ls (("Other").data) m =
      .ok { m with
            other := (ls.filterMap kvOf).foldl
              (fun acc kv => updateAssoc acc kv.1 kv.2) m.other } := by
  induction ls generalizing m with
  | nil => rfl
  | cons l ls ih =>
    obtain ⟨hc, hkv⟩ := h l (by simp)
    have htail : ∀ x ∈ ls, pyEndsColon x = false ∧ (x = [] ∨ (kvOf x).isSome) :=
      fun x hx => h x (by simp [hx])
    rcases hkv with hnil | hsome
    · subst hnil
      simp only [walkLines, pyEndsColon, List.getLastD_nil, kvOf_nil, List.filterMap_cons]
      exact ih m htail
    · have hlne : l ≠ [] := by
        intro he
        rw [he, kvOf_nil] at hsome
        cases hsome
      obtain ⟨⟨k, v⟩, hkv2⟩ := Option.isSome_iff_exists.mp hsome
      have hsp : pySplit l (("\t").data) = [k, v] := by
        unfold kvOf at hkv2
        cases hq : pySplit l (("\t").data) with
        | nil => rw [hq] at hkv2; cases hkv2
        | cons a t =>
          cases t with
          | nil => rw [hq] at hkv2; cases hkv2
          | cons b t2 =>
            cases t2 with
            | nil =>
              rw [hq] at hkv2
              have hab := Option.some.inj hkv2
              rw [show a = k from congrArg Prod.fst hab, show b = v from congrArg Prod.snd hab]
            | cons cc t3 => rw [hq] at hkv2; cases hkv2
      simp only [walkLines, hc, Bool.false_eq_true, if_false, if_neg hlne, hsp]
      have hstep :
          (match Metadata.setKV m (("Other").data) k v with
            | some m2 => walkLines ls (("Other").data) m2
            | none => Except.error ParseErr.unknownSection) =
          walkLines ls (("Other").data) { m with other := updateAssoc m.other k v } := rfl
      rw [hstep, ih _ htail]
      have hfm : (l :: ls).filterMap kvOf = (k, v) :: ls.filterMap kvOf := by
        rw [List.filterMap_cons]
        unfold kvOf
        rw [hsp]
      rw [hfm]
      rfl

/-- Witness for C3 amended: one key/value line before any header lands in
`Other` with the three named sections left empty. -/
theorem C3_other_section_witness :
    walkLines [(("k\tv").data)] (("Other").data) emptyMetadata
      = .ok ⟨[], [], [], [(("k").data, ("v").data)]⟩ := by
  have h := C3_other_section [(("k\tv").data)] emptyMetadata (by decide)
  exact h.trans (by decide)

/-- Counterexample to claim C3 as stated: a key/value line under the
unrecognized header `Foo:` is not filed under `Other` — the parse fails with
the `KeyError` on `self.metadata["Foo"]`. -/
theorem C3_unrecognized_header_counterexample :
    parse_file (("Foo:\na\tb\nChromatogram Data:\nTime (min)\tValue (EU)\n0\t0").data)
      = .error .unknownSection := by
  decide

/-- The metadata walk can fail only with the key/value or section errors,
never with the delimiter error. -/
theorem walkLines_no_missing_delim :
    ∀ (ls : List Str) (cur : Str) (m : Metadata),
      walkLines ls cur m ≠ .error .missingDelimiter := by
  intro ls
  induction ls with
  | nil => intro cur m h; cases h
  | cons l ls ih =>
    intro cur m h
    simp only [walkLines] at h
    split at h
    · exact ih _ _ h
    · split at h
      · exact ih _ _ h
      · split at h
        · split at h
          · exact ih _ _ h
          · injection h with h2; cases h2
        · injection h with h2; cases h2

/-- Claim C4 amended: `_parse_file` raises the delimiter `FormatError` iff
the number of occurrences of `"Chromatogram Data:\n"` in the
whitespace-stripped content differs from one (the split then has a number of
fragments different from two); with exactly one occurrence there, parsing
proceeds past the split and never raises that error.  (The strip matters:
content ending in the delimiter line loses the delimiter's newline.) -/
theorem except_bind_ok {ε β γ : Type} (a : β) (f : β → Except ε γ) :
    (Except.ok a : Except ε β) >>= f = f a := rfl

theorem C4_delimiter_unique (content : Str) :
    parse_file content = .error .missingDelimiter ↔
      (pySplit (pyStrip content) (("Chromatogram Data:\n").data)).length ≠ 2 := by
  unfold parse_file
  split
  next md data heq =>
    rw [heq]
    refine iff_of_false ?_ (by simp)
    intro h
    cases hw : walkLines (pySplit md (("\n").data)) (("Other").data) emptyMetadata with
    | error e =>
      rw [hw] at h
      have h2 : (Except.error e : Except ParseErr (Metadata × DataTable))
          = .error .missingDelimiter := h
      injection h2 with h3
      rw [h3] at hw
      exact walkLines_no_missing_delim _ _ _ hw
    | ok mm =>
      rw [hw, except_bind_ok] at h
      dsimp only at h
      split at h
      · cases h
      · injection h with h3
        cases h3
  next x hexc =>
    refine iff_of_true rfl ?_
    intro hlen
    obtain ⟨u, w, hw⟩ := List.length_eq_two.mp hlen
    exact hexc u w hw

/-- Counterexample to claim C4 as stated: in this content the delimiter
occurs exactly once (the split yields two fragments), yet parsing fails with
the delimiter `FormatError`, because the delimiter sits at the end of the
file and `strip()` removes its trailing newline before the split. -/
theorem C4_trailing_delimiter_counterexample :
    (pySplit (("A\tB\nChromatogram Data:\n").data) (("Chromatogram Data:\n").data)).length = 2 ∧
    parse_file (("A\tB\nChromatogram Data:\n").data) = .error .missingDelimiter :=
  ⟨by decide, by decide⟩

theorem sum_map_add {β : Type} (l : List β) (f g : β → α) :
    (l.map (fun x => f x + g x)).sum = (l.map f).sum + (l.map g).sum := by
  induction l with
  | nil => simp
  | cons x l ih =>
    simp only [List.map_cons, List.sum_cons, ih]
    ring

theorem sum_map_swap {β γ : Type} (xs : List β) (ys : List γ) (f : β → γ → α) :
    (xs.map (fun x => (ys.map (f x)).sum)).sum
      = (ys.map (fun y => (xs.map (fun x => f x y)).sum)).sum := by
  induction xs with
  | nil => simp
  | cons x xs ih =>
    simp only [List.map_cons, List.sum_cons, ih, sum_map_add]

theorem xval_nil (i : ℕ) : xval ([] : List α) i = 0 := by simp [xval]

theorem xval_cons_zero (a : α) (xs : List α) : xval (a :: xs) 0 = a := rfl

theorem xval_cons_succ (a : α) (xs : List α) (i : ℕ) : xval (a :: xs) (i + 1) = xval xs i := rfl

theorem xval_replicate_zero (n i : ℕ) : xval (List.replicate n (0 : α)) i = 0 := by
  induction n generalizing i with
  | zero => simp [xval]
  | succ n ih =>
    cases i with
    | zero => rfl
    | succ i => simpa [List.replicate_succ, xval_cons_succ] using ih i

theorem dot_nil_right (xs : List α) : dot xs [] = 0 := by cases xs <;> rfl

theorem dot_cons (x : α) (xs : List α) (y : α) (ys : List α) :
    dot (x :: xs) (y :: ys) = x * y + dot xs ys := rfl

theorem dot_replicate_zero (xs : List α) (m : ℕ) : dot xs (List.replicate m 0) = 0 := by
  induction xs generalizing m with
  | nil => rfl
  | cons x xs ih =>
    cases m with
    | zero => rfl
    | succ m => simp [List.replicate_succ, dot_cons, ih]

theorem dot_eq_sum (xs ys : List α) :
    dot xs ys = ((List.range xs.length).map (fun j => xval xs j * xval ys j)).sum := by
  induction xs generalizing ys with
  | nil => simp [dot]
  | cons x xs ih =>
    cases ys with
    | nil =>
      rw [dot_nil_right]
      simp [xval_nil]
    | cons y ys =>
      rw [dot_cons, ih ys]
      simp only [List.length_cons, List.range_succ_eq_map, List.map_cons, List.sum_cons,
        List.map_map, xval_cons_zero]
      have hmap : (List.range xs.length).map
            ((fun j => xval (x :: xs) j * xval (y :: ys) j) ∘ Nat.succ)
          = (List.range xs.length).map (fun j => xval xs j * xval ys j) := by
        apply List.map_congr_left
        intro j hj
        simp [Function.comp, xval_cons_succ]
      rw [hmap]

theorem foldl_horner (cs : List α) (t a : α) :
    cs.foldl (fun acc c => acc * t + c) a
      = a * t ^ cs.length + cs.foldl (fun acc c => acc * t + c) 0 := by
  induction cs generalizing a with
  | nil => simp
  | cons c cs ih =>
    simp only [List.foldl_cons, List.length_cons]
    rw [ih (a * t + c), ih (0 * t + c)]
    ring

theorem polyval_replicate_zero (m : ℕ) (t : α) : polyval (List.replicate m 0) t = 0 := by
  induction m with
  | zero => rfl
  | succ m ih =>
    unfold polyval at ih ⊢
    rw [List.replicate_succ, List.foldl_cons, foldl_horner]
    simpa using ih

theorem polyval_eq_sum (cs : List α) (t : α) :
    polyval cs t
      = ((List.range cs.length).map (fun j => xval cs j * t ^ (cs.length - 1 - j))).sum := by
  induction cs with
  | nil => simp [polyval]
  | cons c cs ih =>
    show (c :: cs).foldl (fun acc x => acc * t + x) 0 = _
    rw [List.foldl_cons, foldl_horner]
    have hbase : cs.foldl (fun acc x => acc * t + x) 0 = polyval cs t := rfl
    rw [hbase, ih]
    simp only [List.length_cons, List.range_succ_eq_map, List.map_cons, List.sum_cons,
      List.map_map, xval_cons_zero]
    have hmap : (List.range cs.length).map
          ((fun j => xval (c :: cs) j * t ^ (cs.length + 1 - 1 - j)) ∘ Nat.succ)
        = (List.range cs.length).map (fun j => xval cs j * t ^ (cs.length - 1 - j)) := by
      apply List.map_congr_left
      intro j hj
      simp only [Function.comp_apply, xval_cons_succ]
      congr 2
      omega
    rw [hmap]
    have hc : c * t ^ (cs.length + 1 - 1 - 0) = c * t ^ cs.length := by
      norm_num
    rw [hc]
    ring

theorem sum_sq_eq_zero {β : Type} (l : List β) (g : β → α)
    (h : (l.map (fun x => g x ^ 2)).sum = 0) : ∀ x ∈ l, g x = 0 := by
  induction l with
  | nil => simp
  | cons x l ih =>
    simp only [List.map_cons, List.sum_cons] at h
    have hx2 : (0 : α) ≤ g x ^ 2 := sq_nonneg _
    have hrest : (0 : α) ≤ (l.map (fun y => g y ^ 2)).sum := by
      apply List.sum_nonneg
      intro a ha
      obtain ⟨b, _, rfl⟩ := List.mem_map.mp ha
      exact sq_nonneg _
    have hx : g x ^ 2 = 0 := by linarith
    intro y hy
    rcases List.mem_cons.mp hy with rfl | hy2
    · exact pow_eq_zero_iff (by norm_num) |>.mp hx
    · exact ih (by linarith) y hy2

theorem selectPivot_some :
    ∀ {rows rest : List (List α)} {p : List α},
      selectPivot rows = some (p, rest) →
      p.headD 0 ≠ 0 ∧ p ∈ rows ∧ rows.length = rest.length + 1 ∧
        (∀ r ∈ rows, r = p ∨ r ∈ rest) ∧ (∀ r ∈ rest, r ∈ rows) := by
  intro rows
  induction rows with
  | nil => intro rest p h; cases h
  | cons r rs ih =>
    intro rest p h
    unfold selectPivot at h
    by_cases hr : r.headD 0 ≠ 0
    · rw [if_pos hr] at h
      have hpr := Option.some.inj h
      have hp : r = p := congrArg Prod.fst hpr
      have hrest : rs = rest := congrArg Prod.snd hpr
      subst hp
      subst hrest
      refine ⟨hr, by simp, rfl, ?_, ?_⟩
      · intro x hx
        rcases List.mem_cons.mp hx with rfl | hx2
        · exact Or.inl rfl
        · exact Or.inr hx2
      · intro x hx
        exact List.mem_cons_of_mem _ hx
    · rw [if_neg hr] at h
      cases hsp : selectPivot rs with
      | none => rw [hsp] at h; cases h
      | some pr =>
        obtain ⟨p2, rest2⟩ := pr
        rw [hsp] at h
        have hpr := Option.some.inj h
        have hp : p2 = p := congrArg Prod.fst hpr
        have hrest : r :: rest2 = rest := congrArg Prod.snd hpr
        subst hp
        subst hrest
        obtain ⟨h1, h2, h3, h4, h5⟩ := ih hsp
        refine ⟨h1, List.mem_cons_of_mem _ h2, by simp [h3], ?_, ?_⟩
        · intro x hx
          rcases List.mem_cons.mp hx with rfl | hx2
          · exact Or.inr (by simp)
          · rcases h4 x hx2 with h6 | h6
            · exact Or.inl h6
            · exact Or.inr (by simp [h6])
        · intro x hx
          rcases List.mem_cons.mp hx with rfl | hx2
          · exact List.mem_cons_self _ _
          · exact List.mem_cons_of_mem _ (h5 x hx2)

theorem dot_zipWith_sub (q : α) :
    ∀ (as bs xs : List α), as.length = bs.length →
      dot (List.zipWith (fun a b => b - q * a) as bs) xs
        = dot bs xs - q * dot as xs := by
  intro as
  induction as with
  | nil =>
    intro bs xs hl
    have hbs : bs = [] := List.length_eq_zero.mp hl.symm
    subst hbs
    simp [dot]
  | cons a as ih =>
    intro bs xs hl
    cases bs with
    | nil => simp at hl
    | cons b bs =>
      cases xs with
      | nil => simp [dot_nil_right]
      | cons x xs =>
        simp only [List.zipWith_cons_cons, dot_cons]
        rw [ih bs xs (by simpa using hl)]
        ring

omit [LinearOrderedField α] in
theorem dropLast_cons_ne (a : α) (l : List α) (h : l ≠ []) :
    (a :: l).dropLast = a :: l.dropLast := by
  cases l with
  | nil => exact absurd rfl h
  | cons b l => simp

omit [LinearOrderedField α] in
theorem dropLast_zipWith (f : α → α → α) :
    ∀ (as bs : List α), as.length = bs.length →
      (List.zipWith f as bs).dropLast = List.zipWith f as.dropLast bs.dropLast := by
  intro as
  induction as with
  | nil => intro bs h; simp
  | cons a as ih =>
    intro bs h
    cases bs with
    | nil => simp
    | cons b bs =>
      have h2 : as.length = bs.length := by simpa using h
      cases has : as with
      | nil =>
        have hbs : bs = [] := by rw [has] at h2; exact List.length_eq_zero.mp h2.symm
        subst hbs
        simp
      | cons a2 as2 =>
        cases hbs : bs with
        | nil => rw [has, hbs] at h2; simp at h2
        | cons b2 bs2 =>
          rw [← has, ← hbs]
          have hane : as ≠ [] := by rw [has]; simp
          have hbne : bs ≠ [] := by rw [hbs]; simp
          have hzne : List.zipWith f as bs ≠ [] := by
            rw [has, hbs]
            simp
          rw [List.zipWith_cons_cons, dropLast_cons_ne _ _ hzne,
            dropLast_cons_ne _ _ hane, dropLast_cons_ne _ _ hbne,
            List.zipWith_cons_cons, ih bs h2]

theorem getLastD_irrel {l : List α} (h : l ≠ []) (d e : α) : l.getLastD d = l.getLastD e := by
  cases l with
  | nil => exact absurd rfl h
  | cons a l => rw [List.getLastD_cons, List.getLastD_cons]

theorem getLastD_zipWith (f : α → α → α) :
    ∀ (as bs : List α), as.length = bs.length → as ≠ [] →
      (List.zipWith f as bs).getLastD 0
        = f (as.getLastD 0) (bs.getLastD 0) := by
  intro as
  induction as with
  | nil => intro bs h hne; exact absurd rfl hne
  | cons a as ih =>
    intro bs h hne
    cases bs with
    | nil => simp at h
    | cons b bs =>
      have h2 : as.length = bs.length := by simpa using h
      cases has : as with
      | nil =>
        have hbs : bs = [] := by rw [has] at h2; exact List.length_eq_zero.mp h2.symm
        subst hbs
        simp [List.getLastD_cons]
      | cons a2 as2 =>
        cases hbs : bs with
        | nil => rw [has, hbs] at h2; simp at h2
        | cons b2 bs2 =>
          rw [← has, ← hbs]
          have hane : as ≠ [] := by rw [has]; simp
          have hbne : bs ≠ [] := by rw [hbs]; simp
          have hzne : List.zipWith f as bs ≠ [] := by
            rw [has, hbs]
            simp
          rw [List.zipWith_cons_cons, List.getLastD_cons,
            List.getLastD_cons, List.getLastD_cons,
            getLastD_irrel hzne (f a b) 0, getLastD_irrel hane a 0,
            getLastD_irrel hbne b 0, ih bs h2 hane]

/-- Soundness of the elimination: a solution returned for a square augmented
system has the right length and satisfies every equation of the system. -/
theorem gaussAux_sound :
    ∀ (n : ℕ) (rows : List (List α)) (xs : List α),
      rows.length = n → (∀ r ∈ rows, r.length = n + 1) →
      gaussAux n rows = some xs →
      xs.length = n ∧ ∀ r ∈ rows, dot r.dropLast xs = r.getLastD 0 := by
  intro n
  induction n with
  | zero =>
    intro rows xs hlen hrl hg
    have hrows : rows = [] := List.length_eq_zero.mp hlen
    subst hrows
    unfold gaussAux at hg
    have hxs : xs = [] := (Option.some.inj hg).symm
    subst hxs
    exact ⟨rfl, by intro r hr; cases hr⟩
  | succ n ih =>
    intro rows xs hlen hrl hg
    unfold gaussAux at hg
    cases hsp : selectPivot rows with
    | none => rw [hsp] at hg; cases hg
    | some pr =>
      obtain ⟨p, rest⟩ := pr
      rw [hsp] at hg
      dsimp only at hg
      obtain ⟨hph, hpmem, hlen2, hmem, hsub⟩ := selectPivot_some hsp
      cases hga : gaussAux n (rest.map (elimRow p)) with
      | none => rw [hga] at hg; cases hg
      | some ys =>
        rw [hga] at hg
        dsimp only at hg
        have hplen : p.length = n + 1 + 1 := hrl p hpmem
        cases p with
        | nil => simp at hplen
        | cons p0 ps =>
          have hxs : xs = (ps.getLastD 0 - dot ps.dropLast ys) / p0 :: ys :=
            (Option.some.inj hg).symm
          subst hxs
          have hpslen : ps.length = n + 1 := by simpa using hplen
          have hpsne : ps ≠ [] := by
            intro h0
            rw [h0] at hpslen
            simp at hpslen
          have hp0 : p0 ≠ 0 := by simpa using hph
          have hrestlen : rest.length = n := by omega
          have hredlen : (rest.map (elimRow (p0 :: ps))).length = n := by
            simp [hrestlen]
          have hredrl : ∀ r ∈ rest.map (elimRow (p0 :: ps)), r.length = n + 1 := by
            intro r hr
            obtain ⟨r0, hr0mem, rfl⟩ := List.mem_map.mp hr
            have hr0len : r0.length = n + 1 + 1 := hrl r0 (hsub r0 hr0mem)
            cases r0 with
            | nil => simp at hr0len
            | cons q0 qs =>
              have hq : qs.length = n + 1 := by simpa using hr0len
              simp [elimRow, List.length_zipWith, hpslen, hq]
          obtain ⟨hyslen, hys⟩ := ih (rest.map (elimRow (p0 :: ps))) ys hredlen hredrl hga
          have hpivot : dot (p0 :: ps).dropLast ((ps.getLastD 0 - dot ps.dropLast ys) / p0 :: ys)
              = (p0 :: ps).getLastD 0 := by
            rw [dropLast_cons_ne _ _ hpsne, dot_cons, List.getLastD_cons,
              getLastD_irrel hpsne p0 0]
            field_simp
          refine ⟨by simp [hyslen], ?_⟩
          intro r hrmem
          rcases hmem r hrmem with rfl | hrrest
          · exact hpivot
          · have hrlen : r.length = n + 1 + 1 := hrl r (hsub r hrrest)
            cases r with
            | nil => simp at hrlen
            | cons r0 rs =>
              have hrslen : rs.length = n + 1 := by simpa using hrlen
              have hlz : ps.length = rs.length := by omega
              have hrsne : rs ≠ [] := by
                intro h0
                rw [h0] at hrslen
                simp at hrslen
              have helim2 : dot (List.zipWith (fun a b => b - r0 / p0 * a) ps rs).dropLast ys
                  = (List.zipWith (fun a b => b - r0 / p0 * a) ps rs).getLastD 0 :=
                hys (elimRow (p0 :: ps) (r0 :: rs)) (List.mem_map_of_mem _ hrrest)
              rw [dropLast_zipWith _ ps rs hlz,
                dot_zipWith_sub (r0 / p0) ps.dropLast rs.dropLast ys (by simp [hlz]),
                getLastD_zipWith _ ps rs hlz hpsne] at helim2
              rw [dropLast_cons_ne _ _ hrsne, dot_cons, List.getLastD_cons,
                getLastD_irrel hrsne r0 0]
              linear_combination helim2

theorem sum_map_sub {β : Type} (l : List β) (f g : β → α) :
    (l.map (fun x => f x - g x)).sum = (l.map f).sum - (l.map g).sum := by
  induction l with
  | nil => simp
  | cons x l ih =>
    simp only [List.map_cons, List.sum_cons, ih]
    ring

theorem xval_map_range (m : ℕ) (f : ℕ → α) (j : ℕ) (hj : j < m) :
    xval ((List.range m).map f) j = f j := by
  unfold xval
  rw [List.getD_eq_getElem?_getD, List.getElem?_map, List.getElem?_range hj]
  rfl

theorem zip_replicate_self (ts : List α) (k : α) :
    List.zip ts (List.replicate ts.length k) = ts.map (fun t => (t, k)) := by
  induction ts with
  | nil => rfl
  | cons t ts ih => simp [List.replicate_succ, ih]

theorem normalRow_length (ts ys : List α) (d i : ℕ) :
    (normalRow ts ys d i).length = (d + 1) + 1 := by
  simp [normalRow]

theorem normalSystem_length (ts ys : List α) (d : ℕ) :
    (normalSystem ts ys d).length = d + 1 := by
  simp [normalSystem]

/-- A least-squares polynomial fit of constant data reproduces the constant
at every sample point: when the normal equations are solved exactly, the
fitted values' residual is orthogonal both to the fitted polynomial and to
constants, so its sum of squares vanishes. -/
theorem polyfit_const_fit (ts : List α) (k : α) (d : ℕ) (c : List α)
    (hc : polyfitCoeffs ts (List.replicate ts.length k) d = some c) :
    ∀ t ∈ ts, polyval c t = k := by
  unfold polyfitCoeffs gaussSolve at hc
  rw [normalSystem_length] at hc
  obtain ⟨hclen, hrows⟩ := gaussAux_sound (d + 1)
    (normalSystem ts (List.replicate ts.length k) d) c
    (normalSystem_length ts (List.replicate ts.length k) d)
    (by
      intro r hr
      obtain ⟨i, hi, rfl⟩ := List.mem_map.mp hr
      exact normalRow_length ts (List.replicate ts.length k) d i) hc
  have hE : ∀ i, i < d + 1 →
      (ts.map (fun t => t ^ (d - i) * (polyval c t - k))).sum = 0 := by
    intro i hi
    have hr := hrows (normalRow ts (List.replicate ts.length k) d i)
      (List.mem_map_of_mem _ (List.mem_range.mpr hi))
    unfold normalRow at hr
    rw [List.dropLast_concat, List.getLastD_concat, zip_replicate_self, List.map_map,
      dot_eq_sum, List.length_map, List.length_range] at hr
    have hL : ((List.range (d + 1)).map (fun j =>
          xval ((List.range (d + 1)).map fun j2 => (ts.map fun t => t ^ (2 * d - i - j2)).sum) j
            * xval c j)).sum
        = (ts.map (fun t => t ^ (d - i) * polyval c t)).sum := by
      rw [List.map_congr_left
        (g := fun j => (ts.map (fun t => t ^ (2 * d - i - j) * xval c j)).sum)
        (fun j hj => by
          rw [xval_map_range _ _ _ (List.mem_range.mp hj), ← List.sum_map_mul_right])]
      rw [sum_map_swap]
      apply congrArg
      apply List.map_congr_left
      intro t ht
      rw [polyval_eq_sum, hclen, ← List.sum_map_mul_left]
      apply congrArg
      apply List.map_congr_left
      intro j hj
      have hj2 : j < d + 1 := List.mem_range.mp hj
      have he1 : 2 * d - i - j = (d - i) + (d - j) := by omega
      have he2 : d + 1 - 1 - j = d - j := by omega
      rw [he1, pow_add, he2]
      ring
    have hR : (ts.map ((fun p : α × α => p.1 ^ (d - i) * p.2) ∘ fun t => (t, k))).sum
        = (ts.map (fun t => t ^ (d - i) * k)).sum := by
      apply congrArg
      apply List.map_congr_left
      intro t ht
      rfl
    rw [hL, hR] at hr
    have hdiff : (ts.map (fun t => t ^ (d - i) * (polyval c t - k))).sum
        = (ts.map (fun t => t ^ (d - i) * polyval c t)).sum
          - (ts.map (fun t => t ^ (d - i) * k)).sum := by
      rw [← sum_map_sub]
      apply congrArg
      apply List.map_congr_left
      intro t ht
      ring
    rw [hdiff, hr, sub_self]
  have hsq : (ts.map (fun t => (polyval c t - k) ^ 2)).sum = 0 := by
    have hPe : (ts.map (fun t => polyval c t * (polyval c t - k))).sum = 0 := by
      have hPt : ∀ t : α, polyval c t * (polyval c t - k)
          = ((List.range (d + 1)).map (fun j =>
              xval c j * (t ^ (d - j) * (polyval c t - k)))).sum := by
        intro t
        obtain ⟨e, he⟩ : ∃ e, polyval c t - k = e := ⟨_, rfl⟩
        rw [he]
        conv_lhs => rw [polyval_eq_sum, hclen]
        rw [← List.sum_map_mul_right]
        apply congrArg
        apply List.map_congr_left
        intro j hj
        have he2 : d + 1 - 1 - j = d - j := by omega
        rw [he2]
        ring
      rw [List.map_congr_left (fun t ht => hPt t)]
      rw [sum_map_swap]
      have hz : ∀ j ∈ List.range (d + 1),
          (ts.map (fun t => xval c j * (t ^ (d - j) * (polyval c t - k)))).sum
            = (fun _ : ℕ => (0 : α)) j := by
        intro j hj
        rw [List.sum_map_mul_left, hE j (List.mem_range.mp hj), mul_zero]
      rw [List.map_congr_left hz]
      simp
    have hke : (ts.map (fun t => k * (polyval c t - k))).sum = 0 := by
      rw [List.sum_map_mul_left]
      have h0 : (ts.map (fun t => polyval c t - k)).sum = 0 := by
        have hEd := hE d (by omega)
        have hcongr : (ts.map (fun t => t ^ (d - d) * (polyval c t - k)))
            = ts.map (fun t => polyval c t - k) := by
          apply List.map_congr_left
          intro t ht
          rw [Nat.sub_self, pow_zero, one_mul]
        rw [hcongr] at hEd
        exact hEd
      rw [h0, mul_zero]
    have hsplit : (ts.map (fun t => (polyval c t - k) ^ 2)).sum
        = (ts.map (fun t => polyval c t * (polyval c t - k))).sum
          - (ts.map (fun t => k * (polyval c t - k))).sum := by
      rw [← sum_map_sub]
      apply congrArg
      apply List.map_congr_left
      intro t ht
      ring
    rw [hsplit, hPe, hke, sub_zero]
  intro t ht
  exact sub_eq_zero.mp (sum_sq_eq_zero ts (fun t => polyval c t - k) hsq t ht)

/-- The Savitzky-Golay edge fit of an all-zero window evaluates to zero at
every in-window abscissa: either the edge polyfit solves its normal
equations exactly (then `polyfit_const_fit` at constant 0 applies), or the
zero-polynomial fallback is used. -/
theorem sgEdgeVal_zero (w p i : ℕ) (hi : i < w) :
    sgEdgeVal (List.replicate w (0 : α)) p i = 0 := by
  unfold sgEdgeVal polyfit
  rw [List.length_replicate]
  cases hc : polyfitCoeffs ((List.range w).map (fun j : ℕ => (j : α)))
      (List.replicate w 0) p with
  | none => simp [polyval_replicate_zero]
  | some c =>
    simp only [Option.getD_some]
    have hlen : ((List.range w).map (fun j : ℕ => (j : α))).length = w := by simp
    have hfit := polyfit_const_fit ((List.range w).map (fun j : ℕ => (j : α))) 0 p c
      (by rw [hlen]; exact hc)
    exact hfit _ (List.mem_map_of_mem _ (List.mem_range.mpr hi))

/-- `savgol_filter` maps the all-zero series to the all-zero series: the
interior correlation of any coefficients with zeros is zero and the edge
fits of zero windows evaluate to zero. -/
theorem savgol_zero (n w : ℕ) (hp : 3 < w) (hn : w ≤ n) :
    savgol_filter (List.replicate n (0 : α)) w 3 = .ok (List.replicate n 0) := by
  unfold savgol_filter
  rw [if_neg (by omega), List.length_replicate, if_neg (by omega)]
  have hz : ∀ i ∈ List.range n,
      (if i < w / 2 then sgEdgeVal ((List.replicate n (0 : α)).take w) 3 i
       else if n - w / 2 ≤ i then
         sgEdgeVal ((List.replicate n (0 : α)).drop (n - w)) 3 (i - (n - w))
       else dot (savgolCoeffs w 3) (((List.replicate n (0 : α)).drop (i - w / 2)).take w))
        = (fun _ : ℕ => (0 : α)) i := by
    intro i hi
    have hin : i < n := List.mem_range.mp hi
    by_cases h1 : i < w / 2
    · rw [if_pos h1, List.take_replicate]
      have hmin : min w n = w := by omega
      rw [hmin]
      exact sgEdgeVal_zero w 3 i (by omega)
    · rw [if_neg h1]
      by_cases h2 : n - w / 2 ≤ i
      · rw [if_pos h2, List.drop_replicate]
        have hnn : n - (n - w) = w := by omega
        rw [hnn]
        exact sgEdgeVal_zero w 3 (i - (n - w)) (by omega)
      · rw [if_neg h2, List.drop_replicate, List.take_replicate]
        exact dot_replicate_zero _ _
  dsimp only
  rw [List.map_congr_left hz]
  simp

/-- The local-maxima scan of an all-zero series records nothing: the strict
rise `x (i−1) < x i` never happens. -/
theorem lmAux_replicate_zero (n iMax : ℕ) :
    ∀ (fuel i : ℕ), lmAux (List.replicate n (0 : α)) iMax fuel i = [] := by
  intro fuel
  induction fuel with
  | zero => intro i; rfl
  | succ fuel ih =>
    intro i
    unfold lmAux
    rw [xval_replicate_zero, xval_replicate_zero]
    by_cases h : i < iMax
    · rw [if_pos h, if_neg (lt_irrefl 0), ih]
    · rw [if_neg h]

theorem localMaxima_replicate_zero (n : ℕ) :
    localMaxima (List.replicate n (0 : α)) = [] := by
  unfold localMaxima
  rw [List.length_replicate]
  exact lmAux_replicate_zero n (n - 1) (n + 1) 1

theorem find_peaks_zero (n wlen : ℕ) (hw : 2 ≤ wlen) (ht prom : α) :
    find_peaks (List.replicate n (0 : α)) ht prom wlen = .ok [] := by
  unfold find_peaks
  rw [if_neg (by omega), localMaxima_replicate_zero]
  rfl

/-- Claim C9 amended (the spec's flat-series form): on a perfectly constant
series, thresholded detection — with any window passing the validations
(`polyorder 3 < sg`, `sg` odd, `sg ≤` length, prominence window `≥ 2`) and
any threshold mode — succeeds with an empty peak list.  (The detrending fit
hypothesis holds whenever the normal equations are uniquely solvable, e.g.
for ≥ `pd + 1` distinct time points.)  A merely monotonic series can yield
peaks, see the counterexample. -/
theorem C9_constant_series_empty (sqrtFn : α → α) (time : List α) (k : α)
    (pd : ℕ) (mh : Option α) (prom : α) (wlen sg : ℕ)
    (hsg3 : 3 < sg) (hodd : sg % 2 = 1) (hlen : sg ≤ time.length) (hw : 2 ≤ wlen)
    (hfit : (polyfitCoeffs time (List.replicate time.length k) pd).isSome) :
    detectPeaksList sqrtFn time (List.replicate time.length k) pd mh prom wlen sg
      = .ok [] := by
  obtain ⟨c, hc⟩ := Option.isSome_iff_exists.mp hfit
  have hbase : time.map (polyval (polyfit time (List.replicate time.length k) pd))
      = time.map (fun _ => k) := by
    apply List.map_congr_left
    intro t ht
    show polyval (polyfit time (List.replicate time.length k) pd) t = k
    unfold polyfit
    rw [hc]
    exact polyfit_const_fit time k pd c hc t ht
  have hdetr : List.zipWith (fun v b => v - b) (List.replicate time.length k)
      (time.map (polyval (polyfit time (List.replicate time.length k) pd)))
      = List.replicate time.length 0 := by
    rw [hbase]
    rw [show time.map (fun _ => k) = List.replicate time.length k from List.map_const' time k]
    rw [List.zipWith_replicate']
    simp
  have hps : processedSeries time (List.replicate time.length k) pd sg
      = .ok (List.replicate time.length 0) := by
    unfold processedSeries
    rw [List.length_replicate, if_neg (by omega), if_neg (by omega)]
    dsimp only
    rw [hdetr]
    exact savgol_zero time.length sg hsg3 hlen
  unfold detectPeaksList
  rw [hps, except_bind_ok]
  dsimp only
  rw [find_peaks_zero time.length wlen hw _ prom, except_bind_ok]
  rfl

/-- Witness for C9 amended: a constant 5-sample series with the standard
parameters detects nothing and raises nothing. -/
theorem C9_constant_series_empty_witness :
    detectPeaksList (fun q => q) ([0, 1, 2, 3, 4] : List ℚ) (List.replicate 5 3)
        3 none 1 100 5 = .ok [] := by
  have h := C9_constant_series_empty (fun q => (q : ℚ)) [0, 1, 2, 3, 4] 3 3 none 1 100 5
    (by decide) (by decide) (by decide) (by decide) (by decide)
  simpa using h

/-- Counterexample to claim C9 as stated: a strictly increasing (hence
perfectly monotonic, peak-free) 9-sample series satisfying the
smoothing-window precondition on which thresholded detection succeeds with a
nonempty peak list — polynomial detrending turns the monotone step into a
series with genuine local maxima. -/
theorem C9_monotone_counterexample :
    List.Chain' (· < ·) ([0, 1, 2, 3, 103, 104, 105, 106, 107] : List ℚ) ∧
    ((5 : ℕ) % 2 = 1 ∧
      (5 : ℕ) < ([0, 1, 2, 3, 103, 104, 105, 106, 107] : List ℚ).length) ∧
    exceptOk (detectPeaksList (fun q => q) [0, 1, 2, 3, 4, 5, 6, 7, 8]
        ([0, 1, 2, 3, 103, 104, 105, 106, 107] : List ℚ) 3 (some (-1000000))
        (1 / 1000000) 100 5) = true ∧
    detectPeaksList (fun q => q) [0, 1, 2, 3, 4, 5, 6, 7, 8]
        ([0, 1, 2, 3, 103, 104, 105, 106, 107] : List ℚ) 3 (some (-1000000))
        (1 / 1000000) 100 5 ≠ .ok [] :=
  ⟨by norm_num [List.chain'_cons, List.chain'_singleton], ⟨by decide, by decide⟩,
   by decide, by decide⟩

end LC
